/-
Verification of the B-Peach dashboard (dashboard.py): a shallow embedding of
its aggregation and pattern-analysis logic, with theorems settling the
specification claims about it.

Modelling conventions:
* pandas DataFrames are lists of rows; cells are an inductive `Value` with an
  explicit `nan` marker for absent values;
* numeric fields (`em_score`) are rationals, standing for the Python floats;
* fallible Python code (raised exceptions) is `Except String` / `Option`;
* iteration order of Python dicts is insertion order (Python 3.7+), modelled
  by insertion-ordered association lists.
-/
import Mathlib

set_option autoImplicit false

deriving instance DecidableEq for Except

namespace BPeach

/-! ## Cells of the pattern-analysis table

`analysis_pattern` (dashboard.py lines 62-87) reads two columns of the
aggregated table: `tagged_words` (a text-serialized Python list literal,
replaced in place by its `eval`-uated value at line 64) and `em_score`
(numeric).  A row of the aggregated table is modelled by those two fields
plus `original_passage`, the only other column the script ever reads. -/

/-- A `tagged_words` cell: either still the raw text from the CSV file, or
the parsed list of tag labels that `eval` turns it into at line 64. -/
inductive TagCell where
  | raw (s : String)
  | parsed (ts : List String)
deriving DecidableEq

/-- One row of the aggregated table, restricted to the columns the pattern
analysis reads. -/
structure ARow where
  original_passage : String
  tagged_words : TagCell
  em_score : ℚ
deriving DecidableEq

/-- One row of the tag-analysis result table built at lines 82-85. -/
structure TagRow where
  tag : String
  average_em_score : ℚ
  tag_count : Nat
deriving DecidableEq

/-! ## Python list-literal parsing (the `eval` at line 64)

The `tagged_words` cells hold text such as `["word1", "word2"]`.  Python
`eval` is modelled by a parser for list-of-string literals; any cell that
does not evaluate to a list of strings aborts the analysis exactly as the
exception raised by `eval` (or by iterating a non-list) does. -/

def skipSpaces (cs : List Char) : List Char :=
  cs.dropWhile (fun c => c = ' ')

/-- Parse one quoted string literal (single or double quotes, no escapes:
the tag labels the dashboard consumes contain neither quotes nor
backslashes).  Returns the string and the remaining input. -/
def parseStrLit : List Char → Option (String × List Char)
  | q :: rest =>
    if q = '\'' ∨ q = '"' then
      match rest.dropWhile (fun c => c ≠ q) with
      | _ :: tail => some (String.mk (rest.takeWhile (fun c => c ≠ q)), tail)
      | [] => none
    else none
  | [] => none

/-- Parse the items of a list literal after the opening bracket, up to and
including the closing bracket.  Fuel-driven recursion; the fuel passed by
`parseTagList` is an upper bound on the number of items. -/
def parseItems (acc : List String) : Nat → List Char → Option (List String × List Char)
  | 0, _ => none
  | n + 1, cs =>
    match skipSpaces cs with
    | ']' :: tail => if acc.isEmpty then some ([], tail) else none
    | cs' =>
      match parseStrLit cs' with
      | none => none
      | some (s, rest) =>
        match skipSpaces rest with
        | ']' :: tail => some (acc ++ [s], tail)
        | ',' :: tail => parseItems (acc ++ [s]) n tail
        | _ => none

/-- Evaluate a Python list-of-strings literal, as `eval` does at line 64 for
the data this dashboard consumes.  `none` models the raised exception. -/
def parseTagList (s : String) : Option (List String) :=
  match skipSpaces s.data with
  | '[' :: rest =>
    match parseItems [] (rest.length + 1) rest with
    | some (ts, tail) => if (skipSpaces tail).isEmpty then some ts else none
    | none => none
  | _ => none

/-- Python `eval` applied to a `tagged_words` cell (line 64).  A raw text
cell is parsed as a list-of-strings literal; applying `eval` to an already
parsed list (a non-string argument) raises, hence `none`. -/
def evalTagCell : TagCell → Option (List String)
  | .raw s => parseTagList s
  | .parsed _ => none

/-- Map a fallible function over a list; any failure aborts the whole
traversal (the propagation of a raised exception out of a loop). -/
def optionMapList {α β : Type} (f : α → Option β) : List α → Option (List β)
  | [] => some []
  | a :: l =>
    match f a, optionMapList f l with
    | some b, some bs => some (b :: bs)
    | _, _ => none

/-- Line 64, `df[tagged_words].apply(eval)`: evaluate every cell of the
column; the first failing cell raises, aborting the whole `apply`. -/
def parseTaggedColumn (df : List ARow) : Option (List (List String)) :=
  optionMapList (fun r => evalTagCell r.tagged_words) df

/-- The column reassignment of line 64: each row receives the parsed value
of its `tagged_words` cell. -/
def setParsed (df : List ARow) (tss : List (List String)) : List ARow :=
  List.zipWith (fun r ts => { r with tagged_words := TagCell.parsed ts }) df tss

/-! ## The tag accumulators (lines 66-80)

`tag_counts` and `tag_em_scores` are Python dicts, which iterate in
insertion order; they are modelled by association lists where a new key is
appended at the end and an update rewrites the value in place. -/

def alistHas {α : Type} (d : List (String × α)) (k : String) : Bool :=
  d.any (fun p => p.1 == k)

def alistGet {α : Type} (d : List (String × α)) (k : String) : Option α :=
  (d.find? (fun p => p.1 == k)).map (fun p => p.2)

def alistModify {α : Type} (d : List (String × α)) (k : String) (f : α → α) :
    List (String × α) :=
  d.map (fun p => if p.1 == k then (p.1, f p.2) else p)

/-- State of the two accumulator dicts. -/
abbrev TagDicts := List (String × Nat) × List (String × List ℚ)

/-- Lines 73-78: for one tag occurrence of a row with score `em`, insert the
tag with count 0 and empty score list if unseen, then increment its count
and append the score. -/
def recordTag (st : TagDicts) (em : ℚ) (tag : String) : TagDicts :=
  let st' :=
    if alistHas st.1 tag then st
    else (st.1 ++ [(tag, 0)], st.2 ++ [(tag, [])])
  (alistModify st'.1 tag (fun n => n + 1),
   alistModify st'.2 tag (fun l => l ++ [em]))

/-- Lines 69-78: iterate over the rows (`df.iterrows()`), and within each
row over its parsed tag list. -/
def tallyRows (rows : List (List String × ℚ)) : TagDicts :=
  rows.foldl (fun st r => r.1.foldl (fun st' t => recordTag st' r.2 t) st) ([], [])

/-- Map a fallible function over a list in the exception monad; the first
failure aborts the traversal with that exception. -/
def exceptMapList {ε α β : Type} (f : α → Except ε β) : List α → Except ε (List β)
  | [] => Except.ok []
  | a :: l =>
    match f a with
    | Except.error e => Except.error e
    | Except.ok b =>
      match exceptMapList f l with
      | Except.error e => Except.error e
      | Except.ok bs => Except.ok (b :: bs)

/-- Line 80: `tag_em_avg`, the per-tag mean `sum(scores) / len(scores)`.
An empty score list would raise `ZeroDivisionError`; the error branch
models that exception. -/
def tagAverages (scores : List (String × List ℚ)) :
    Except String (List (String × ℚ)) :=
  exceptMapList (fun p =>
    if p.2.isEmpty then Except.error "ZeroDivisionError"
    else Except.ok (p.1, p.2.sum / (p.2.length : ℚ))) scores

/-- Lines 82-85: the result table, one row per key of `tag_em_avg` in dict
(insertion) order.  `tag_counts[tag]` is a plain lookup; the keys of the two
dicts coincide by construction, so the `getD 0` default is never taken. -/
def buildTable (counts : List (String × Nat)) (avgs : List (String × ℚ)) :
    List TagRow :=
  avgs.map (fun p => ⟨p.1, p.2, (alistGet counts p.1).getD 0⟩)

/-- The tag statistics table of lines 64-85: the value `tag_analysis_df`
holds just before the `sort_values` call of line 86. -/
def tag_analysis_stats (df : List ARow) : Except String (List TagRow) :=
  match parseTaggedColumn df with
  | none => Except.error "eval: malformed tagged_words literal"
  | some tss =>
    let st := tallyRows (tss.zip (df.map (fun r => r.em_score)))
    match tagAverages st.2 with
    | Except.error e => Except.error e
    | Except.ok avgs => Except.ok (buildTable st.1 avgs)

/-- The final step of `analysis_pattern` (line 86): `sort_values` is called
with a Python lambda as its `by` argument, but pandas `sort_values` accepts
only column labels (or lists of labels) for `by`; looking the callable up
as a label raises `KeyError`, so the call never returns a sorted table. -/
def sort_values_by_callable (_t : List TagRow) : Except String (List TagRow) :=
  Except.error "KeyError: <lambda>"

/-- `analysis_pattern` (lines 62-87) together with its effect on the
DataFrame the caller passed in: line 64 reassigns the `tagged_words` column,
mutating the input table in place before the analysis proceeds, and that
mutation persists even when a later step raises.  The first component is
the table as the caller sees it after the call; the second is the value
returned (or the exception raised).  The weight factor is unused because the
lambda that would consume it is rejected by `sort_values` before being
invoked. -/
def analysis_pattern_run (df : List ARow) (_weight_factor : ℚ) :
    List ARow × Except String (List TagRow) :=
  (match parseTaggedColumn df with
   | none => df
   | some tss => setParsed df tss,
   match tag_analysis_stats df with
   | Except.error e => Except.error e
   | Except.ok t => sort_values_by_callable t)

/-- The value `analysis_pattern` returns (or the exception it raises). -/
def analysis_pattern (df : List ARow) (weight_factor : ℚ) :
    Except String (List TagRow) :=
  (analysis_pattern_run df weight_factor).2

/-! ## Generic data frames (the aggregation side)

`aggregate_csv_files` (lines 96-103) and `fetch_csv_content` (lines 48-60)
work on arbitrary CSV tables, modelled as a column list plus rows of
(column, cell) pairs.  `Value.nan` is the explicit absent-value marker that
`pd.concat` fills in for columns a source frame lacks. -/

/-- A cell of a generic data frame. -/
inductive Value where
  | nan
  | str (s : String)
  | nat (n : Nat)
deriving DecidableEq

/-- A pandas DataFrame: its column labels in order, and its rows, each a
(column, cell) association list. -/
structure DataFrame where
  cols : List String
  rows : List (List (String × Value))
deriving DecidableEq

/-- `pd.DataFrame()`, the empty frame. -/
def emptyDF : DataFrame := ⟨[], []⟩

/-- `df.empty`: a pandas frame is empty when either axis has length zero. -/
def pdEmpty (df : DataFrame) : Bool :=
  df.rows.isEmpty || df.cols.isEmpty

/-- Cell of a row at a column. -/
def getCell (r : List (String × Value)) (c : String) : Option Value :=
  alistGet r c

/-- Assign a cell, overwriting an existing column or appending a new one at
the end, as a pandas column assignment does. -/
def setCell (r : List (String × Value)) (c : String) (v : Value) :
    List (String × Value) :=
  if alistHas r c then alistModify r c (fun _ => v) else r ++ [(c, v)]

/-! ### The span count (line 101)

`df[original_passage].str.count(r'<span')` counts regex matches; the
pattern `<span` contains no regex metacharacter, so it is the literal,
case-sensitive, non-overlapping occurrence count, scanning left to right
and skipping the length of the pattern at each match. -/

/-- Whether `p` is a prefix of `t`. -/
def matchesAt (p t : List Char) : Bool :=
  match p, t with
  | [], _ => true
  | _ :: _, [] => false
  | a :: p', b :: t' => a == b && matchesAt p' t'

/-- Left-to-right non-overlapping match count; the fuel is an upper bound
on the scan steps (one character is consumed per step at minimum). -/
def countOccAux (p : List Char) : Nat → List Char → Nat
  | 0, _ => 0
  | _ + 1, [] => 0
  | n + 1, c :: rest =>
    if matchesAt p (c :: rest) then
      1 + countOccAux p n (List.drop (p.length - 1) rest)
    else
      countOccAux p n rest

/-- The number of occurrences of `<span` in a passage, as
`Series.str.count(r'<span')` computes it for one cell. -/
def countSpanTags (s : String) : Nat :=
  countOccAux "<span".data s.data.length s.data

/-- `str.count` over one cell: a non-string cell (for example `NaN`)
yields `NaN`. -/
def spanVal (v : Option Value) : Value :=
  match v with
  | some (Value.str s) => Value.nat (countSpanTags s)
  | _ => Value.nan

/-- Line 101: `df[span_count] = df[original_passage].str.count(r'<span')`.
Reading a column the frame does not have raises `KeyError`. -/
def addSpanCount (df : DataFrame) : Except String DataFrame :=
  if df.cols.contains "original_passage" then
    Except.ok
      { cols := if df.cols.contains "span_count" then df.cols
                else df.cols ++ ["span_count"],
        rows := df.rows.map (fun r =>
          setCell r "span_count" (spanVal (getCell r "original_passage"))) }
  else Except.error "KeyError: original_passage"

/-! ### `pd.concat` (line 103) -/

/-- The column labels of a concatenation: union of the source columns in
order of first appearance (`pd.concat` with the default `join=outer`,
`sort=False`). -/
def unionCols (dfs : List DataFrame) : List String :=
  dfs.foldl (fun acc d => acc ++ d.cols.filter (fun c => ¬ acc.contains c)) []

/-- Reindex one row to a column list: a column the row lacks gets the
explicit `NaN` marker. -/
def reindexRow (cols : List String) (r : List (String × Value)) :
    List (String × Value) :=
  cols.map (fun c => (c, (getCell r c).getD Value.nan))

/-- `pd.concat(dfs, ignore_index=True)`: rows of every frame in order, each
reindexed to the union of the columns. -/
def pd_concat (dfs : List DataFrame) : DataFrame :=
  ⟨unionCols dfs, dfs.flatMap (fun d => d.rows.map (reindexRow (unionCols dfs)))⟩

/-! ### Fetching and decoding (lines 48-60)

The GitHub content API response is modelled by its status code and the
base64 `content` field of its JSON body; the network itself is a function
from file names to responses, standing for `requests.get` behind the
`st.cache_data` per-name cache. -/

/-- A GitHub contents-API response. -/
structure GhResponse where
  status : Nat
  content : String
deriving DecidableEq

/-- Value of one base64 alphabet character. -/
def b64val (c : Char) : Option Nat :=
  if 'A' ≤ c ∧ c ≤ 'Z' then some (c.toNat - 'A'.toNat)
  else if 'a' ≤ c ∧ c ≤ 'z' then some (c.toNat - 'a'.toNat + 26)
  else if '0' ≤ c ∧ c ≤ '9' then some (c.toNat - '0'.toNat + 52)
  else if c = '+' then some 62
  else if c = '/' then some 63
  else none

/-- Decode a list of 6-bit values into bytes.  A leftover of one value
cannot encode a byte: `binascii` raises (incorrect padding). -/
def b64bytes : List Nat → Option (List Nat)
  | [] => some []
  | [_] => none
  | [a, b] => some [a * 4 + b / 16]
  | [a, b, c] => some [a * 4 + b / 16, (b % 16) * 16 + c / 4]
  | a :: b :: c :: d :: rest =>
    (b64bytes rest).map (fun t =>
      (a * 4 + b / 16) :: ((b % 16) * 16 + c / 4) :: ((c % 4) * 64 + d) :: t)

/-- `base64.b64decode` in its default non-strict mode: characters outside
the alphabet are discarded, `=` ends the data, and decoding fails when the
data characters do not fill whole bytes without padding: a leftover of one
character always raises, a leftover of two or three raises unless the data
was explicitly padded with `=`. -/
def b64decode (s : String) : Option (List Nat) :=
  let digits := (s.data.takeWhile (fun c => c ≠ '=')).filterMap b64val
  if digits.length % 4 = 0 ∨ s.data.contains '=' then b64bytes digits
  else none

/-- Strict UTF-8 decoding of a byte list (`bytes.decode('utf-8')`):
truncated sequences, invalid continuation bytes, overlong encodings,
surrogates and out-of-range code points all raise `UnicodeDecodeError`.
The fuel is the number of bytes; each step consumes at least one byte. -/
def utf8DecodeAux : Nat → List Nat → Option (List Char)
  | _, [] => some []
  | 0, _ :: _ => none
  | n + 1, b :: rest =>
    if b < 0x80 then
      (utf8DecodeAux n rest).map (fun cs => Char.ofNat b :: cs)
    else if 0xC2 ≤ b ∧ b ≤ 0xDF then
      match rest with
      | b1 :: rest' =>
        if 0x80 ≤ b1 ∧ b1 ≤ 0xBF then
          (utf8DecodeAux n rest').map (fun cs =>
            Char.ofNat ((b - 0xC0) * 64 + (b1 - 0x80)) :: cs)
        else none
      | [] => none
    else if 0xE0 ≤ b ∧ b ≤ 0xEF then
      match rest with
      | b1 :: b2 :: rest' =>
        let cp := (b - 0xE0) * 4096 + (b1 - 0x80) * 64 + (b2 - 0x80)
        if (0x80 ≤ b1 ∧ b1 ≤ 0xBF) ∧ (0x80 ≤ b2 ∧ b2 ≤ 0xBF) ∧
            0x800 ≤ cp ∧ (cp < 0xD800 ∨ 0xDFFF < cp) then
          (utf8DecodeAux n rest').map (fun cs => Char.ofNat cp :: cs)
        else none
      | _ => none
    else if 0xF0 ≤ b ∧ b ≤ 0xF4 then
      match rest with
      | b1 :: b2 :: b3 :: rest' =>
        let cp := (b - 0xF0) * 262144 + (b1 - 0x80) * 4096 +
          (b2 - 0x80) * 64 + (b3 - 0x80)
        if (0x80 ≤ b1 ∧ b1 ≤ 0xBF) ∧ (0x80 ≤ b2 ∧ b2 ≤ 0xBF) ∧
            (0x80 ≤ b3 ∧ b3 ≤ 0xBF) ∧ 0x10000 ≤ cp ∧ cp ≤ 0x10FFFF then
          (utf8DecodeAux n rest').map (fun cs => Char.ofNat cp :: cs)
        else none
      | _ => none
    else none

/-- `bytes.decode('utf-8')`. -/
def utf8Decode (bytes : List Nat) : Option String :=
  (utf8DecodeAux bytes.length bytes).map String.mk

/-- Split a character list on a separator character (the splitting that
`str.split` and the CSV tokenizer perform). -/
def splitOnChar (sep : Char) : List Char → List (List Char)
  | [] => [[]]
  | c :: rest =>
    let r := splitOnChar sep rest
    if c = sep then [] :: r
    else
      match r with
      | h :: t => (c :: h) :: t
      | [] => [[c]]

/-- Pair header columns with the fields of one line, padding a short line
with `NaN` cells. -/
def pairCells : List String → List String → List (String × Value)
  | [], _ => []
  | c :: cs, [] => (c, Value.nan) :: pairCells cs []
  | c :: cs, f :: fs => (c, Value.str f) :: pairCells cs fs

/-- One CSV data line parsed against the header: fields are split on
commas, a short row is padded with `NaN`, and a row with more fields than
the header raises a tokenizing error. -/
def csvRow (cols : List String) (line : String) :
    Option (List (String × Value)) :=
  let fields := (splitOnChar ',' line.data).map String.mk
  if cols.length < fields.length then none
  else some (pairCells cols fields)

/-- `pandas.read_csv` restricted to the plain comma-separated tables this
dashboard consumes: lines split on newlines, blank lines skipped
(`skip_blank_lines` default), the first line is the header, cells are kept
as text (numeric dtype inference is outside the scope of the claims).
Input with no lines raises `EmptyDataError`, modelled as `none`. -/
def read_csv (text : String) : Option DataFrame :=
  match ((splitOnChar '\n' text.data).map String.mk).filter (fun l => l ≠ "") with
  | [] => none
  | header :: body =>
    let cols := (splitOnChar ',' header.data).map String.mk
    (optionMapList (csvRow cols) body).map (fun rows => ⟨cols, rows⟩)

/-- `fetch_csv_content` (lines 48-60): on a 200 response, decode the
base64 `content` field to UTF-8 text and parse it as CSV — any failure in
that chain raises to the caller (`Except.error`); on any other status,
report the failure on the UI surface (`st.error`, not modelled) and return
an empty frame.  The network is the function `http`, standing for
`requests.get` behind the per-file-name `st.cache_data` cache. -/
def fetch_csv_content (http : String → GhResponse) (file_name : String) :
    Except String DataFrame :=
  let response := http file_name
  if response.status = 200 then
    match b64decode response.content with
    | none => Except.error "binascii.Error: Incorrect padding"
    | some bytes =>
      match utf8Decode bytes with
      | none => Except.error "UnicodeDecodeError"
      | some text =>
        match read_csv text with
        | none => Except.error "EmptyDataError: No columns to parse from file"
        | some df => Except.ok df
  else Except.ok emptyDF

/-- The fetch-and-filter loop of `aggregate_csv_files` (lines 97-102):
fetch every file in order, skip the empty frames, and give every surviving
frame its `span_count` column.  An exception from a fetch or from the
column assignment propagates. -/
def collectData (http : String → GhResponse) :
    List String → Except String (List DataFrame)
  | [] => Except.ok []
  | n :: ns =>
    match fetch_csv_content http n with
    | Except.error e => Except.error e
    | Except.ok df =>
      if pdEmpty df then collectData http ns
      else
        match addSpanCount df with
        | Except.error e => Except.error e
        | Except.ok d =>
          match collectData http ns with
          | Except.error e => Except.error e
          | Except.ok rest => Except.ok (d :: rest)

/-- `aggregate_csv_files` (lines 96-103): concatenate the surviving frames,
or return an empty frame when none survived. -/
def aggregate_csv_files (http : String → GhResponse) (names : List String) :
    Except String DataFrame :=
  match collectData http names with
  | Except.error e => Except.error e
  | Except.ok [] => Except.ok emptyDF
  | Except.ok ds => Except.ok (pd_concat ds)

/-! ## Derived notions used to state the claims about the tag statistics -/

/-- One step of the accumulation, applied to one (tag, score) occurrence. -/
def tallyStep (st : TagDicts) (p : String × ℚ) : TagDicts :=
  recordTag st p.2 p.1

/-- The stream of (tag, score) occurrence pairs the nested loop of lines
69-78 processes, in processing order. -/
def occOf (rows : List (List String × ℚ)) : List (String × ℚ) :=
  rows.flatMap (fun r => r.1.map (fun t => (t, r.2)))

/-- Total number of occurrences of tag `t`, counting repetitions inside a
single row separately. -/
def tagOccurrences (rows : List (List String × ℚ)) (t : String) : Nat :=
  (occOf rows).countP (fun p => p.1 == t)

/-- The scores recorded for tag `t`: one copy of the row score per
occurrence of `t` in that row. -/
def scoresFor (rows : List (List String × ℚ)) (t : String) : List ℚ :=
  ((occOf rows).filter (fun p => p.1 == t)).map (fun p => p.2)

/-- From the words of the claims: the number of Records (rows) whose tag
sequence contains `t`. -/
def recordsContaining (rows : List (List String × ℚ)) (t : String) : Nat :=
  (rows.filter (fun r => r.1.contains t)).length

/-- From the words of the claims: the arithmetic mean of the scores of the
rows containing `t`, each containing row weighted once. -/
def meanOfRows (rows : List (List String × ℚ)) (t : String) : ℚ :=
  ((rows.filter (fun r => r.1.contains t)).map (fun r => r.2)).sum /
    ((rows.filter (fun r => r.1.contains t)).length : ℚ)

/-- The (tag list, score) rows the analysis loop iterates over, given the
parsed tag column. -/
def analysisRows (df : List ARow) (tss : List (List String)) :
    List (List String × ℚ) :=
  tss.zip (df.map (fun r => r.em_score))

/-- Invariant tying the two accumulator dicts to the prefix of the
occurrence stream already processed. -/
def TallyInv (proc : List (String × ℚ)) (st : TagDicts) : Prop :=
  (∀ p ∈ st.1, p.2 = proc.countP (fun q => q.1 == p.1)) ∧
  (∀ p ∈ st.2, p.2 = (proc.filter (fun q => q.1 == p.1)).map (fun q => q.2)) ∧
  (∀ t, alistHas st.1 t = true ↔ t ∈ proc.map Prod.fst) ∧
  (∀ t, alistHas st.2 t = true ↔ t ∈ proc.map Prod.fst)

end BPeach

namespace BPeach

/-! ## Association-list lemmas -/

theorem alistHas_of_mem {α : Type} {d : List (String × α)} {p : String × α}
    (h : p ∈ d) : alistHas d p.1 = true := by
  simp only [alistHas, List.any_eq_true]
  exact ⟨p, h, by simp⟩

theorem fst_modifyPair {α : Type} (p : String × α) (k : String) (f : α → α) :
    ((if p.1 == k then (p.1, f p.2) else p)).1 = p.1 := by
  split <;> rfl

theorem alistHas_modify {α : Type} (d : List (String × α)) (k : String)
    (f : α → α) (t : String) :
    alistHas (alistModify d k f) t = alistHas d t := by
  simp only [alistHas, alistModify, List.any_map]
  congr 1
  funext p
  simp only [Function.comp]
  rw [fst_modifyPair]

theorem alistGet_isSome {α : Type} {d : List (String × α)} {k : String}
    (h : alistHas d k = true) : ∃ v, alistGet d k = some v := by
  simp only [alistHas, List.any_eq_true] at h
  obtain ⟨p, hp, hk⟩ := h
  have : (d.find? (fun q => q.1 == k)).isSome = true :=
    List.find?_isSome.mpr ⟨p, hp, hk⟩
  obtain ⟨q, hq⟩ := Option.isSome_iff_exists.mp this
  exact ⟨q.2, by simp [alistGet, hq]⟩

theorem alistGet_mem {α : Type} {d : List (String × α)} {k : String} {v : α}
    (h : alistGet d k = some v) : ∃ p ∈ d, p.1 = k ∧ p.2 = v := by
  simp only [alistGet, Option.map_eq_some'] at h
  obtain ⟨p, hp, hv⟩ := h
  exact ⟨p, List.mem_of_find?_eq_some hp,
    by simpa using List.find?_some hp, hv⟩

/-! ## The accumulation fold and its invariant -/

theorem foldl_inner (l : List String) (em : ℚ) (st : TagDicts) :
    l.foldl (fun st' t => recordTag st' em t) st =
      (l.map (fun t => (t, em))).foldl tallyStep st := by
  induction l generalizing st with
  | nil => rfl
  | cons t l ih => simp [tallyStep, ih]

theorem tallyRows_eq_occ_foldl (rows : List (List String × ℚ)) :
    tallyRows rows = (occOf rows).foldl tallyStep ([], []) := by
  suffices h : ∀ st, rows.foldl
      (fun st r => r.1.foldl (fun st' t => recordTag st' r.2 t) st) st =
      (occOf rows).foldl tallyStep st from h ([], [])
  intro st
  induction rows generalizing st with
  | nil => rfl
  | cons r rows ih =>
    simp only [occOf, List.flatMap_cons, List.foldl_append, List.foldl_cons]
    rw [foldl_inner, ih]
    rfl

theorem tallyStep_inv {proc : List (String × ℚ)} {st : TagDicts}
    (x : String × ℚ) (h : TallyInv proc st) :
    TallyInv (proc ++ [x]) (tallyStep st x) := by
  obtain ⟨h1, h2, h3, h4⟩ := h
  obtain ⟨t, em⟩ := x
  have hmemkeys : ∀ (t' : String), t' ∈ (proc ++ [(t, em)]).map Prod.fst ↔
      t' ∈ proc.map Prod.fst ∨ t' = t := by
    intro t'
    simp [List.map_append]
  by_cases hin : alistHas st.1 t = true
  · have hin2 : alistHas st.2 t = true := (h4 t).mpr ((h3 t).mp hin)
    have hstep : tallyStep st (t, em) =
        (alistModify st.1 t (fun n => n + 1),
         alistModify st.2 t (fun l => l ++ [em])) := by
      simp [tallyStep, recordTag, hin]
    rw [hstep]
    refine ⟨?_, ?_, ?_, ?_⟩
    · intro p' hp'
      simp only [alistModify, List.mem_map] at hp'
      obtain ⟨p, hp, hp'eq⟩ := hp'
      by_cases hb : p.1 == t
      · have hbt : p.1 = t := by simpa using hb
        subst hp'eq
        simp only [hb, if_true]
        have := h1 p hp
        simp [List.countP_append, this, List.countP_cons, hbt]
      · subst hp'eq
        simp only [hb, Bool.false_eq_true, if_false]
        have := h1 p hp
        have hne : ¬ t = p.1 := fun he => hb (by simp [he])
        simp [List.countP_append, this, List.countP_cons, hne]
    · intro p' hp'
      simp only [alistModify, List.mem_map] at hp'
      obtain ⟨p, hp, hp'eq⟩ := hp'
      by_cases hb : p.1 == t
      · have hbt : p.1 = t := by simpa using hb
        subst hp'eq
        simp only [hb, if_true]
        have := h2 p hp
        simp [List.filter_append, this, List.filter_cons, hbt]
      · subst hp'eq
        simp only [hb, Bool.false_eq_true, if_false]
        have := h2 p hp
        have hne : ¬ t = p.1 := fun he => hb (by simp [he])
        simp [List.filter_append, this, List.filter_cons, hne]
    · intro t'
      rw [alistHas_modify, h3 t', hmemkeys t']
      constructor
      · exact Or.inl
      · rintro (hl | rfl)
        · exact hl
        · exact (h3 t').mp hin
    · intro t'
      rw [alistHas_modify, h4 t', hmemkeys t']
      constructor
      · exact Or.inl
      · rintro (hl | rfl)
        · exact hl
        · exact (h3 t').mp hin
  · have hnotkey : t ∉ proc.map Prod.fst := fun hk => hin ((h3 t).mpr hk)
    have hin2 : ¬ alistHas st.2 t = true := fun hh => hnotkey ((h4 t).mp hh)
    have hstep : tallyStep st (t, em) =
        (alistModify (st.1 ++ [(t, 0)]) t (fun n => n + 1),
         alistModify (st.2 ++ [(t, [])]) t (fun l => l ++ [em])) := by
      simp [tallyStep, recordTag, hin]
    rw [hstep]
    have hcount0 : proc.countP (fun q => q.1 == t) = 0 := by
      rw [List.countP_eq_zero]
      intro q hq
      simp only [beq_iff_eq]
      intro he
      exact hnotkey (he ▸ List.mem_map_of_mem Prod.fst hq)
    have hfilter0 : proc.filter (fun q => q.1 == t) = [] := by
      rw [List.filter_eq_nil_iff]
      intro q hq
      simp only [beq_iff_eq]
      intro he
      exact hnotkey (he ▸ List.mem_map_of_mem Prod.fst hq)
    refine ⟨?_, ?_, ?_, ?_⟩
    · intro p' hp'
      simp only [alistModify, List.map_append, List.mem_append, List.mem_map] at hp'
      rcases hp' with ⟨p, hp, hp'eq⟩ | hp'
      · have hb : ¬ (p.1 == t) = true := by
          intro hbq
          have hbt : p.1 = t := by simpa using hbq
          have hh := alistHas_of_mem hp
          rw [hbt] at hh
          exact hin hh
        subst hp'eq
        simp only [hb, Bool.false_eq_true, if_false]
        have := h1 p hp
        have hne : ¬ t = p.1 := fun he => hb (by simp [he])
        simp [List.countP_append, this, List.countP_cons, hne]
      · simp only [List.map_cons, List.map_nil, List.mem_singleton] at hp'
        rcases hp' with ⟨a, rfl, rfl⟩
        simp [List.countP_append, hcount0, List.countP_cons]
    · intro p' hp'
      simp only [alistModify, List.map_append, List.mem_append, List.mem_map] at hp'
      rcases hp' with ⟨p, hp, hp'eq⟩ | hp'
      · have hb : ¬ (p.1 == t) = true := by
          intro hbq
          have hbt : p.1 = t := by simpa using hbq
          have hh := alistHas_of_mem hp
          rw [hbt] at hh
          exact hin2 hh
        subst hp'eq
        simp only [hb, Bool.false_eq_true, if_false]
        have := h2 p hp
        have hne : ¬ t = p.1 := fun he => hb (by simp [he])
        simp [List.filter_append, this, List.filter_cons, hne]
      · simp only [List.map_cons, List.map_nil, List.mem_singleton] at hp'
        rcases hp' with ⟨a, rfl, rfl⟩
        simp [List.filter_append, hfilter0, List.filter_cons]
    · intro t'
      rw [alistHas_modify, hmemkeys t']
      have hsplit : alistHas (st.1 ++ [(t, 0)]) t' =
          (alistHas st.1 t' || (t == t')) := by
        simp [alistHas, List.any_append]
      rw [hsplit]
      simp only [Bool.or_eq_true]
      constructor
      · rintro (hl | hr)
        · exact Or.inl ((h3 t').mp hl)
        · have ht' : t = t' := by simpa using hr
          exact Or.inr ht'.symm
      · rintro (hl | rfl)
        · exact Or.inl ((h3 t').mpr hl)
        · exact Or.inr (by simp)
    · intro t'
      rw [alistHas_modify, hmemkeys t']
      have hsplit : alistHas (st.2 ++ [(t, ([] : List ℚ))]) t' =
          (alistHas st.2 t' || (t == t')) := by
        simp [alistHas, List.any_append]
      rw [hsplit]
      simp only [Bool.or_eq_true]
      constructor
      · rintro (hl | hr)
        · exact Or.inl ((h4 t').mp hl)
        · have ht' : t = t' := by simpa using hr
          exact Or.inr ht'.symm
      · rintro (hl | rfl)
        · exact Or.inl ((h4 t').mpr hl)
        · exact Or.inr (by simp)

theorem tallyRows_inv (rows : List (List String × ℚ)) :
    TallyInv (occOf rows) (tallyRows rows) := by
  rw [tallyRows_eq_occ_foldl]
  suffices h : ∀ (s proc : List (String × ℚ)) (st : TagDicts),
      TallyInv proc st → TallyInv (proc ++ s) (s.foldl tallyStep st) by
    simpa using h (occOf rows) [] ([], [])
      ⟨by simp, by simp, by simp [alistHas], by simp [alistHas]⟩
  intro s
  induction s with
  | nil => intro proc st h; simpa using h
  | cons x s ih =>
    intro proc st h
    have := ih (proc ++ [x]) (tallyStep st x) (tallyStep_inv x h)
    simpa using this

/-! ## From the invariant to the statistics table -/

theorem exceptMapList_ok_of_forall {ε α β : Type} (f : α → Except ε β)
    (g : α → β) (l : List α) (h : ∀ a ∈ l, f a = Except.ok (g a)) :
    exceptMapList f l = Except.ok (l.map g) := by
  induction l with
  | nil => rfl
  | cons a l ih =>
    have ha := h a (List.mem_cons_self a l)
    have hl := ih (fun b hb => h b (List.mem_cons_of_mem a hb))
    simp [exceptMapList, ha, hl]

theorem tagAverages_ok (scores : List (String × List ℚ))
    (h : ∀ p ∈ scores, p.2 ≠ []) :
    tagAverages scores =
      Except.ok (scores.map (fun p => (p.1, p.2.sum / (p.2.length : ℚ)))) := by
  refine exceptMapList_ok_of_forall _ _ _ (fun p hp => ?_)
  have : ¬ p.2.isEmpty = true := by
    simpa [List.isEmpty_iff] using h p hp
  simp [this]

theorem mem_keys_of_mem_scores {rows : List (List String × ℚ)}
    {p : String × List ℚ} (hp : p ∈ (tallyRows rows).2) :
    p.1 ∈ (occOf rows).map Prod.fst := by
  have hinv := tallyRows_inv rows
  exact (hinv.2.2.2 p.1).mp (alistHas_of_mem hp)

theorem scores_nonempty_of_mem {rows : List (List String × ℚ)}
    {p : String × List ℚ} (hp : p ∈ (tallyRows rows).2) : p.2 ≠ [] := by
  have hinv := tallyRows_inv rows
  have hv := hinv.2.1 p hp
  have hk := mem_keys_of_mem_scores hp
  obtain ⟨q, hq, hq1⟩ := List.mem_map.mp hk
  intro he
  rw [hv] at he
  have hfil : (occOf rows).filter (fun q' => q'.1 == p.1) = [] :=
    List.map_eq_nil_iff.mp he
  have := List.filter_eq_nil_iff.mp hfil q hq
  simp [hq1] at this

theorem scores_val_of_mem {rows : List (List String × ℚ)}
    {p : String × List ℚ} (hp : p ∈ (tallyRows rows).2) :
    p.2 = scoresFor rows p.1 := by
  have hinv := tallyRows_inv rows
  exact hinv.2.1 p hp

theorem counts_val (rows : List (List String × ℚ)) (t : String)
    (hk : t ∈ (occOf rows).map Prod.fst) :
    alistGet (tallyRows rows).1 t = some (tagOccurrences rows t) := by
  have hinv := tallyRows_inv rows
  have hhas : alistHas (tallyRows rows).1 t = true := (hinv.2.2.1 t).mpr hk
  obtain ⟨v, hv⟩ := alistGet_isSome hhas
  obtain ⟨q, hqmem, hq1, hq2⟩ := alistGet_mem hv
  have := hinv.1 q hqmem
  rw [hv, hq2.symm, this, hq1]
  rfl

theorem stats_table_shape (df : List ARow) (tss : List (List String))
    (hp : parseTaggedColumn df = some tss) :
    tag_analysis_stats df = Except.ok
      (((tallyRows (analysisRows df tss)).2).map (fun p =>
        ⟨p.1, p.2.sum / (p.2.length : ℚ),
          (alistGet (tallyRows (analysisRows df tss)).1 p.1).getD 0⟩)) := by
  unfold tag_analysis_stats
  rw [hp]
  have havg := tagAverages_ok ((tallyRows (analysisRows df tss)).2)
    (fun p hp' => scores_nonempty_of_mem hp')
  simp only [analysisRows] at havg ⊢
  rw [havg]
  simp [buildTable, List.map_map]

theorem stats_row_facts (df : List ARow) (tss : List (List String))
    (table : List TagRow) (hp : parseTaggedColumn df = some tss)
    (ht : tag_analysis_stats df = Except.ok table) :
    ∀ tr ∈ table,
      tr.tag_count = tagOccurrences (analysisRows df tss) tr.tag ∧
      tr.average_em_score = (scoresFor (analysisRows df tss) tr.tag).sum /
        ((scoresFor (analysisRows df tss) tr.tag).length : ℚ) ∧
      tr.tag ∈ (occOf (analysisRows df tss)).map Prod.fst := by
  intro tr htr
  rw [stats_table_shape df tss hp] at ht
  have htable := (Except.ok.injEq _ _).mp ht
  rw [← htable] at htr
  obtain ⟨p, hpmem, hpeq⟩ := List.mem_map.mp htr
  have hkey := mem_keys_of_mem_scores hpmem
  have hget := counts_val (analysisRows df tss) p.1 hkey
  have hsc := scores_val_of_mem hpmem
  rw [← hpeq]
  refine ⟨?_, ?_, ?_⟩
  · simp [hget]
  · simp [hsc]
  · simpa using hkey

/-! ## Occurrence counts versus per-record counts -/

theorem occOf_cons (r : List String × ℚ) (rows : List (List String × ℚ)) :
    occOf (r :: rows) = r.1.map (fun t => (t, r.2)) ++ occOf rows := by
  simp [occOf]

theorem tagOccurrences_cons (r : List String × ℚ)
    (rows : List (List String × ℚ)) (t : String) :
    tagOccurrences (r :: rows) t = r.1.count t + tagOccurrences rows t := by
  simp only [tagOccurrences, occOf_cons, List.countP_append, List.countP_map]
  rw [List.count_eq_countP]
  rfl

theorem contains_eq_decide_mem (l : List String) (t : String) :
    l.contains t = decide (t ∈ l) := by
  rw [show l.contains t = l.elem t from rfl, List.elem_eq_mem]

theorem count_of_nodup {l : List String} {t : String} (h : l.Nodup) :
    l.count t = if t ∈ l then 1 else 0 := by
  by_cases hm : t ∈ l
  · have h1 : 1 ≤ l.count t := List.count_pos_iff.mpr hm
    have h2 : l.count t ≤ 1 := List.nodup_iff_count_le_one.mp h t
    rw [if_pos hm]
    omega
  · rw [List.count_eq_zero.mpr hm, if_neg hm]

theorem tagOccurrences_eq_recordsContaining
    (rows : List (List String × ℚ)) (t : String)
    (h : ∀ r ∈ rows, r.1.Nodup) :
    tagOccurrences rows t = recordsContaining rows t := by
  induction rows with
  | nil => rfl
  | cons r rows ih =>
    have hr := h r (List.mem_cons_self r rows)
    have htail := ih (fun q hq => h q (List.mem_cons_of_mem r hq))
    rw [tagOccurrences_cons, htail, count_of_nodup hr]
    simp only [recordsContaining, List.filter_cons, contains_eq_decide_mem]
    by_cases hm : t ∈ r.1
    · simp [hm]
      omega
    · simp [hm]

theorem scoresFor_cons (r : List String × ℚ)
    (rows : List (List String × ℚ)) (t : String) :
    scoresFor (r :: rows) t =
      List.replicate (r.1.count t) r.2 ++ scoresFor rows t := by
  simp only [scoresFor, occOf_cons, List.filter_append, List.map_append]
  congr 1
  rw [List.filter_map, List.map_map]
  have hconst : ((fun p => p.2) ∘ (fun t' => (t', r.2)) : String → ℚ) =
      Function.const String r.2 := rfl
  rw [hconst, List.map_const, ← List.countP_eq_length_filter, List.count_eq_countP]
  rfl

theorem scoresFor_of_nodup (rows : List (List String × ℚ)) (t : String)
    (h : ∀ r ∈ rows, r.1.Nodup) :
    scoresFor rows t =
      (rows.filter (fun r => r.1.contains t)).map (fun r => r.2) := by
  induction rows with
  | nil => rfl
  | cons r rows ih =>
    have hr := h r (List.mem_cons_self r rows)
    have htail := ih (fun q hq => h q (List.mem_cons_of_mem r hq))
    rw [scoresFor_cons, htail, count_of_nodup hr]
    simp only [List.filter_cons, contains_eq_decide_mem]
    by_cases hm : t ∈ r.1 <;> simp [hm]

theorem tagOccurrences_pos {rows : List (List String × ℚ)} {t : String}
    (h : t ∈ (occOf rows).map Prod.fst) : 1 ≤ tagOccurrences rows t := by
  obtain ⟨q, hq, hq1⟩ := List.mem_map.mp h
  exact List.countP_pos_iff.mpr ⟨q, hq, by simp [hq1]⟩

/-! ## Lemmas about fallible traversals -/

theorem optionMapList_none {α β : Type} (f : α → Option β) (l : List α)
    (h : ∃ a ∈ l, f a = none) : optionMapList f l = none := by
  induction l with
  | nil => simp at h
  | cons a l ih =>
    obtain ⟨b, hb, hfb⟩ := h
    rcases List.mem_cons.mp hb with rfl | hbl
    · simp [optionMapList, hfb]
    · have := ih ⟨b, hbl, hfb⟩
      simp only [optionMapList, this]
      cases f a <;> rfl

theorem optionMapList_some_forall₂ {α β : Type} {f : α → Option β} :
    ∀ {l : List α} {l' : List β}, optionMapList f l = some l' →
      List.Forall₂ (fun a b => f a = some b) l l' := by
  intro l
  induction l with
  | nil =>
    intro l' h
    simp only [optionMapList, Option.some.injEq] at h
    rw [← h]
    exact List.Forall₂.nil
  | cons a l ih =>
    intro l' h
    simp only [optionMapList] at h
    cases hfa : f a with
    | none => rw [hfa] at h; simp at h
    | some b =>
      rw [hfa] at h
      cases hrec : optionMapList f l with
      | none => rw [hrec] at h; simp at h
      | some bs =>
        rw [hrec] at h
        simp only [Option.some.injEq] at h
        rw [← h]
        exact List.Forall₂.cons hfa (ih hrec)

theorem optionMapList_mem {α β : Type} {f : α → Option β} :
    ∀ {l : List α} {l' : List β}, optionMapList f l = some l' →
      ∀ b ∈ l', ∃ a ∈ l, f a = some b := by
  intro l
  induction l with
  | nil =>
    intro l' h b hb
    simp only [optionMapList, Option.some.injEq] at h
    rw [← h] at hb
    simp at hb
  | cons a l ih =>
    intro l' h b hb
    simp only [optionMapList] at h
    cases hfa : f a with
    | none => rw [hfa] at h; simp at h
    | some b0 =>
      rw [hfa] at h
      cases hrec : optionMapList f l with
      | none => rw [hrec] at h; simp at h
      | some bs =>
        rw [hrec] at h
        simp only [Option.some.injEq] at h
        rw [← h] at hb
        rcases List.mem_cons.mp hb with rfl | hbs
        · exact ⟨a, List.mem_cons_self a l, hfa⟩
        · obtain ⟨a', ha', hfa'⟩ := ih hrec b hbs
          exact ⟨a', List.mem_cons_of_mem a ha', hfa'⟩

/-! ## Cell and frame lemmas -/

theorem alistHas_cons {α : Type} (p : String × α) (rest : List (String × α))
    (c : String) :
    alistHas (p :: rest) c = ((p.1 == c) || alistHas rest c) := by
  simp [alistHas, List.any_cons]

theorem alistGet_cons {α : Type} (p : String × α) (rest : List (String × α))
    (c : String) :
    alistGet (p :: rest) c =
      if (p.1 == c) = true then some p.2 else alistGet rest c := by
  simp only [alistGet, List.find?_cons]
  by_cases hb : (p.1 == c) = true <;> simp [hb]

theorem alistGet_modify_set {α : Type} {r : List (String × α)} {c : String}
    (v : α) (h : alistHas r c = true) :
    alistGet (alistModify r c (fun _ => v)) c = some v := by
  induction r with
  | nil => simp [alistHas] at h
  | cons p rest ih =>
    simp only [alistModify, List.map_cons]
    by_cases hb : (p.1 == c) = true
    · rw [if_pos hb, alistGet_cons]
      simp [hb]
    · rw [if_neg hb, alistGet_cons]
      simp only [hb]
      have hrest : alistHas rest c = true := by
        rw [alistHas_cons, Bool.or_eq_true] at h
        rcases h with h1 | h2
        · exact absurd h1 hb
        · exact h2
      simpa [alistModify] using ih hrest

theorem alistGet_append_new {α : Type} {r : List (String × α)} {c : String}
    (v : α) (h : alistHas r c = false) :
    alistGet (r ++ [(c, v)]) c = some v := by
  induction r with
  | nil => simp [alistGet, List.find?_cons]
  | cons p rest ih =>
    rw [alistHas_cons, Bool.or_eq_false_iff] at h
    rw [List.cons_append, alistGet_cons, if_neg (by simp [h.1]), ih h.2]

theorem alistGet_modify_ne {α : Type} (r : List (String × α)) (c c' : String)
    (f : α → α) (h : c' ≠ c) :
    alistGet (alistModify r c f) c' = alistGet r c' := by
  induction r with
  | nil => rfl
  | cons p rest ih =>
    simp only [alistModify, List.map_cons]
    by_cases hb : (p.1 == c) = true
    · have hp1 : p.1 = c := by simpa using hb
      have hb' : (p.1 == c') = false := by
        simp only [beq_eq_false_iff_ne, ne_eq, hp1]
        exact fun he => h he.symm
      rw [if_pos hb, alistGet_cons, alistGet_cons]
      simp only [hb']
      simpa [alistModify] using ih
    · rw [if_neg hb, alistGet_cons, alistGet_cons]
      by_cases hb' : (p.1 == c') = true
      · simp [hb']
      · simp only [hb']
        simpa [alistModify] using ih

theorem alistGet_append_ne {α : Type} (r : List (String × α)) (c c' : String)
    (v : α) (h : c' ≠ c) :
    alistGet (r ++ [(c, v)]) c' = alistGet r c' := by
  induction r with
  | nil =>
    simp only [List.nil_append, alistGet_cons]
    rw [if_neg (by simp [Ne.symm h])]
  | cons p rest ih =>
    rw [List.cons_append, alistGet_cons, alistGet_cons]
    by_cases hb : (p.1 == c') = true
    · simp [hb]
    · simp only [hb]
      exact ih

theorem getCell_setCell_same (r : List (String × Value)) (c : String)
    (v : Value) : getCell (setCell r c v) c = some v := by
  unfold setCell getCell
  by_cases h : alistHas r c = true
  · rw [if_pos h]
    exact alistGet_modify_set v h
  · rw [if_neg h]
    exact alistGet_append_new v (Bool.not_eq_true _ |>.mp h)

theorem getCell_setCell_ne (r : List (String × Value)) (c c' : String)
    (v : Value) (h : c' ≠ c) : getCell (setCell r c v) c' = getCell r c' := by
  unfold setCell getCell
  by_cases hhas : alistHas r c = true
  · rw [if_pos hhas]
    exact alistGet_modify_ne r c c' _ h
  · rw [if_neg hhas]
    exact alistGet_append_ne r c c' v h

theorem getCell_reindex (cols : List String) (r : List (String × Value))
    (c : String) :
    getCell (reindexRow cols r) c =
      if c ∈ cols then some ((getCell r c).getD Value.nan) else none := by
  induction cols with
  | nil => rfl
  | cons c0 cs ih =>
    simp only [reindexRow, List.map_cons, getCell] at ih ⊢
    rw [alistGet_cons]
    by_cases hb : (c0 == c) = true
    · have : c0 = c := by simpa using hb
      subst this
      rw [if_pos hb, if_pos (List.mem_cons_self c0 cs)]
    · have hne : ¬ c = c0 := fun he => hb (by simp [he])
      rw [if_neg hb]
      have := ih
      simp only [reindexRow] at this
      rw [this]
      by_cases hm : c ∈ cs
      · rw [if_pos hm, if_pos (List.mem_cons_of_mem c0 hm)]
      · rw [if_neg hm, if_neg (by
          intro hc
          rcases List.mem_cons.mp hc with he | hm2
          · exact hne he
          · exact hm hm2)]

theorem mem_unionCols (dfs : List DataFrame) (c : String) :
    c ∈ unionCols dfs ↔ ∃ d ∈ dfs, c ∈ d.cols := by
  suffices h : ∀ (acc : List String),
      c ∈ dfs.foldl (fun acc d => acc ++ d.cols.filter
        (fun c' => ¬ acc.contains c')) acc ↔
      c ∈ acc ∨ ∃ d ∈ dfs, c ∈ d.cols by
    simpa [unionCols] using h []
  induction dfs with
  | nil => intro acc; simp
  | cons d dfs ih =>
    intro acc
    rw [List.foldl_cons, ih]
    constructor
    · rintro (hacc | hrest)
      · rcases List.mem_append.mp hacc with h1 | h2
        · exact Or.inl h1
        · exact Or.inr ⟨d, List.mem_cons_self d dfs, (List.mem_filter.mp h2).1⟩
      · obtain ⟨d', hd', hc'⟩ := hrest
        exact Or.inr ⟨d', List.mem_cons_of_mem d hd', hc'⟩
    · rintro (hacc | ⟨d', hd', hc'⟩)
      · exact Or.inl (List.mem_append.mpr (Or.inl hacc))
      · rcases List.mem_cons.mp hd' with rfl | hd2
        · by_cases hin : c ∈ acc
          · exact Or.inl (List.mem_append.mpr (Or.inl hin))
          · refine Or.inl (List.mem_append.mpr (Or.inr ?_))
            refine List.mem_filter.mpr ⟨hc', ?_⟩
            simp [contains_eq_decide_mem, hin]
        · exact Or.inr ⟨d', hd2, hc'⟩

theorem pd_concat_rows_mem (dfs : List DataFrame)
    (r : List (String × Value)) :
    r ∈ (pd_concat dfs).rows ↔
      ∃ d ∈ dfs, ∃ r0 ∈ d.rows, r = reindexRow (unionCols dfs) r0 := by
  simp only [pd_concat, List.mem_flatMap, List.mem_map]
  constructor
  · rintro ⟨d, hd, r0, hr0, rfl⟩
    exact ⟨d, hd, r0, hr0, rfl⟩
  · rintro ⟨d, hd, r0, hr0, rfl⟩
    exact ⟨d, hd, r0, hr0, rfl⟩

theorem pd_concat_length (dfs : List DataFrame) :
    (pd_concat dfs).rows.length = (dfs.map (fun d => d.rows.length)).sum := by
  simp only [pd_concat, List.length_flatMap]
  congr 1
  exact List.map_congr_left (fun d _ => by simp [Function.comp])

/-! ## Lemmas about `addSpanCount`, `collectData` and well-formed frames -/

theorem addSpanCount_ok {df d : DataFrame}
    (h : addSpanCount df = Except.ok d) :
    df.cols.contains "original_passage" = true ∧
    d.cols = (if df.cols.contains "span_count" then df.cols
              else df.cols ++ ["span_count"]) ∧
    d.rows = df.rows.map (fun r =>
      setCell r "span_count" (spanVal (getCell r "original_passage"))) := by
  unfold addSpanCount at h
  by_cases hc : df.cols.contains "original_passage" = true
  · rw [if_pos hc] at h
    have := (Except.ok.injEq _ _).mp h
    exact ⟨hc, by rw [← this], by rw [← this]⟩
  · rw [if_neg hc] at h
    exact absurd h (by simp)

theorem addSpanCount_length {df d : DataFrame}
    (h : addSpanCount df = Except.ok d) : d.rows.length = df.rows.length := by
  rw [(addSpanCount_ok h).2.2, List.length_map]

theorem addSpanCount_cols_mem {df d : DataFrame}
    (h : addSpanCount df = Except.ok d) (c : String) :
    c ∈ d.cols ↔ c ∈ df.cols ∨ c = "span_count" := by
  rw [(addSpanCount_ok h).2.1]
  by_cases hs : df.cols.contains "span_count" = true
  · rw [if_pos hs]
    constructor
    · exact Or.inl
    · rintro (hm | rfl)
      · exact hm
      · simpa [contains_eq_decide_mem] using hs
  · rw [if_neg hs]
    simp [List.mem_append]

theorem addSpanCount_span_mem {df d : DataFrame}
    (h : addSpanCount df = Except.ok d) : "span_count" ∈ d.cols :=
  (addSpanCount_cols_mem h "span_count").mpr (Or.inr rfl)

theorem addSpanCount_rows_mem {df d : DataFrame}
    (h : addSpanCount df = Except.ok d) :
    ∀ r0 ∈ d.rows, ∃ r1 ∈ df.rows,
      r0 = setCell r1 "span_count" (spanVal (getCell r1 "original_passage")) := by
  intro r0 hr0
  rw [(addSpanCount_ok h).2.2] at hr0
  obtain ⟨r1, hr1, heq⟩ := List.mem_map.mp hr0
  exact ⟨r1, hr1, heq.symm⟩

theorem collectData_cons (http : String → GhResponse) (n : String)
    (ns : List String) :
    collectData http (n :: ns) =
      match fetch_csv_content http n with
      | Except.error e => Except.error e
      | Except.ok df =>
        if pdEmpty df then collectData http ns
        else
          match addSpanCount df with
          | Except.error e => Except.error e
          | Except.ok d =>
            match collectData http ns with
            | Except.error e => Except.error e
            | Except.ok rest => Except.ok (d :: rest) := rfl

theorem collectData_ok_mem {http : String → GhResponse} :
    ∀ {names : List String} {ds : List DataFrame},
      collectData http names = Except.ok ds →
      ∀ d ∈ ds, ∃ n df, n ∈ names ∧ fetch_csv_content http n = Except.ok df ∧
        pdEmpty df = false ∧ addSpanCount df = Except.ok d := by
  intro names
  induction names with
  | nil =>
    intro ds h d hd
    simp only [collectData, Except.ok.injEq] at h
    rw [← h] at hd
    simp at hd
  | cons n ns ih =>
    intro ds h d hd
    rw [collectData_cons] at h
    cases hf : fetch_csv_content http n with
    | error e => rw [hf] at h; simp at h
    | ok df =>
      rw [hf] at h
      dsimp only at h
      by_cases he : pdEmpty df = true
      · rw [if_pos he] at h
        obtain ⟨n', df', hn', hf', hne', ha'⟩ := ih h d hd
        exact ⟨n', df', List.mem_cons_of_mem n hn', hf', hne', ha'⟩
      · rw [if_neg he] at h
        cases hs : addSpanCount df with
        | error e => rw [hs] at h; simp at h
        | ok d0 =>
          rw [hs] at h
          dsimp only at h
          cases hrec : collectData http ns with
          | error e => rw [hrec] at h; simp at h
          | ok rest =>
            rw [hrec] at h
            dsimp only at h
            have hds := (Except.ok.injEq _ _).mp h
            rw [← hds] at hd
            rcases List.mem_cons.mp hd with rfl | hdrest
            · exact ⟨n, df, List.mem_cons_self n ns, hf,
                Bool.not_eq_true _ |>.mp he, hs⟩
            · obtain ⟨n', df', hn', hf', hne', ha'⟩ := ih hrec d hdrest
              exact ⟨n', df', List.mem_cons_of_mem n hn', hf', hne', ha'⟩

theorem collectData_ok_forall {http : String → GhResponse} :
    ∀ {names : List String} {ds : List DataFrame},
      collectData http names = Except.ok ds →
      ∀ n ∈ names, ∃ df, fetch_csv_content http n = Except.ok df ∧
        (pdEmpty df = true ∨ ∃ d ∈ ds, addSpanCount df = Except.ok d) := by
  intro names
  induction names with
  | nil => intro ds _ n hn; simp at hn
  | cons n0 ns ih =>
    intro ds h n hn
    rw [collectData_cons] at h
    cases hf : fetch_csv_content http n0 with
    | error e => rw [hf] at h; simp at h
    | ok df =>
      rw [hf] at h
      dsimp only at h
      by_cases he : pdEmpty df = true
      · rw [if_pos he] at h
        rcases List.mem_cons.mp hn with rfl | hns
        · exact ⟨df, hf, Or.inl he⟩
        · exact ih h n hns
      · rw [if_neg he] at h
        cases hs : addSpanCount df with
        | error e => rw [hs] at h; simp at h
        | ok d0 =>
          rw [hs] at h
          dsimp only at h
          cases hrec : collectData http ns with
          | error e => rw [hrec] at h; simp at h
          | ok rest =>
            rw [hrec] at h
            dsimp only at h
            have hds := (Except.ok.injEq _ _).mp h
            rcases List.mem_cons.mp hn with rfl | hns
            · refine ⟨df, hf, Or.inr ⟨d0, ?_, hs⟩⟩
              rw [← hds]
              exact List.mem_cons_self d0 rest
            · obtain ⟨df', hf', hor⟩ := ih hrec n hns
              refine ⟨df', hf', ?_⟩
              rcases hor with h1 | ⟨d', hd', ha'⟩
              · exact Or.inl h1
              · refine Or.inr ⟨d', ?_, ha'⟩
                rw [← hds]
                exact List.mem_cons_of_mem d0 hd'

theorem collectData_ok_lengths {http : String → GhResponse} :
    ∀ {names : List String} {ds : List DataFrame},
      collectData http names = Except.ok ds →
      (ds.map (fun d => d.rows.length)).sum =
        (names.map (fun n =>
          match fetch_csv_content http n with
          | Except.ok d => if pdEmpty d then 0 else d.rows.length
          | Except.error _ => 0)).sum := by
  intro names
  induction names with
  | nil =>
    intro ds h
    simp only [collectData, Except.ok.injEq] at h
    rw [← h]
    rfl
  | cons n ns ih =>
    intro ds h
    rw [collectData_cons] at h
    cases hf : fetch_csv_content http n with
    | error e => rw [hf] at h; simp at h
    | ok df =>
      rw [hf] at h
      dsimp only at h
      simp only [List.map_cons, List.sum_cons, hf]
      by_cases he : pdEmpty df = true
      · rw [if_pos he] at h
        rw [if_pos he, ih h]
        omega
      · rw [if_neg he] at h
        rw [if_neg he]
        cases hs : addSpanCount df with
        | error e => rw [hs] at h; simp at h
        | ok d0 =>
          rw [hs] at h
          dsimp only at h
          cases hrec : collectData http ns with
          | error e => rw [hrec] at h; simp at h
          | ok rest =>
            rw [hrec] at h
            dsimp only at h
            have hds := (Except.ok.injEq _ _).mp h
            rw [← hds]
            simp only [List.map_cons, List.sum_cons]
            rw [addSpanCount_length hs, ih hrec]

theorem collectData_all_empty {http : String → GhResponse} :
    ∀ {names : List String},
      (∀ n ∈ names, fetch_csv_content http n = Except.ok emptyDF) →
      collectData http names = Except.ok [] := by
  intro names
  induction names with
  | nil => intro _; rfl
  | cons n ns ih =>
    intro h
    rw [collectData_cons, h n (List.mem_cons_self n ns)]
    dsimp only
    rw [if_pos (by rfl)]
    exact ih (fun m hm => h m (List.mem_cons_of_mem n hm))

theorem aggregate_ok {http : String → GhResponse} {names : List String}
    {agg : DataFrame} (h : aggregate_csv_files http names = Except.ok agg) :
    ∃ ds, collectData http names = Except.ok ds ∧ agg = pd_concat ds := by
  unfold aggregate_csv_files at h
  cases hc : collectData http names with
  | error e => rw [hc] at h; simp at h
  | ok ds =>
    rw [hc] at h
    cases ds with
    | nil =>
      refine ⟨[], rfl, ?_⟩
      have : emptyDF = agg := (Except.ok.injEq _ _).mp h
      rw [← this]
      rfl
    | cons d rest =>
      exact ⟨d :: rest, rfl, ((Except.ok.injEq _ _).mp h).symm⟩

/-! ## Well-formed frames: CSV rows carry exactly the header keys -/

theorem pairCells_keys : ∀ (cols fields : List String),
    (pairCells cols fields).map Prod.fst = cols := by
  intro cols
  induction cols with
  | nil => intro fields; cases fields <;> rfl
  | cons c cs ih =>
    intro fields
    cases fields with
    | nil => simpa [pairCells] using ih []
    | cons f fs => simpa [pairCells] using ih fs

theorem csvRow_keys {cols : List String} {line : String}
    {r : List (String × Value)} (h : csvRow cols line = some r) :
    r.map Prod.fst = cols := by
  unfold csvRow at h
  by_cases hl : cols.length <
      ((splitOnChar ',' line.data).map String.mk).length
  · rw [if_pos hl] at h
    simp at h
  · rw [if_neg hl] at h
    have := (Option.some.injEq _ _).mp h
    rw [← this]
    exact pairCells_keys _ _

theorem read_csv_wf {text : String} {df : DataFrame}
    (h : read_csv text = some df) :
    ∀ r ∈ df.rows, r.map Prod.fst = df.cols := by
  unfold read_csv at h
  cases hsplit : ((splitOnChar '\n' text.data).map String.mk).filter
      (fun l => l ≠ "") with
  | nil => rw [hsplit] at h; simp at h
  | cons header body =>
    rw [hsplit] at h
    dsimp only at h
    rw [Option.map_eq_some'] at h
    obtain ⟨rows, hrows, hdf⟩ := h
    rw [← hdf]
    intro r hr
    obtain ⟨line, _, hline⟩ := optionMapList_mem hrows r hr
    exact csvRow_keys hline

theorem fetch_wf {http : String → GhResponse} {n : String} {d : DataFrame}
    (h : fetch_csv_content http n = Except.ok d) :
    d = emptyDF ∨ ∀ r ∈ d.rows, r.map Prod.fst = d.cols := by
  unfold fetch_csv_content at h
  by_cases hs : (http n).status = 200
  · rw [if_pos hs] at h
    cases hb : b64decode (http n).content with
    | none => rw [hb] at h; simp at h
    | some bytes =>
      rw [hb] at h
      dsimp only at h
      cases hu : utf8Decode bytes with
      | none => rw [hu] at h; simp at h
      | some text =>
        rw [hu] at h
        dsimp only at h
        cases hr : read_csv text with
        | none => rw [hr] at h; simp at h
        | some df =>
          rw [hr] at h
          have : df = d := (Except.ok.injEq _ _).mp h
          exact Or.inr (this ▸ read_csv_wf hr)
  · rw [if_neg hs] at h
    exact Or.inl ((Except.ok.injEq _ _).mp h).symm

theorem alistHas_iff_mem_keys {α : Type} (r : List (String × α)) (c : String) :
    alistHas r c = true ↔ c ∈ r.map Prod.fst := by
  simp only [alistHas, List.any_eq_true, List.mem_map]
  constructor
  · rintro ⟨p, hp, hb⟩
    exact ⟨p, hp, by simpa using hb⟩
  · rintro ⟨p, hp, hb⟩
    exact ⟨p, hp, by simp [hb]⟩

theorem alistGet_none_of_not_mem_keys {α : Type} {r : List (String × α)}
    {c : String} (h : c ∉ r.map Prod.fst) : alistGet r c = none := by
  unfold alistGet
  rw [List.find?_eq_none.mpr]
  · rfl
  · intro p hp
    simp only [beq_iff_eq]
    intro he
    exact h (List.mem_map.mpr ⟨p, hp, he⟩)

theorem setCell_keys (r : List (String × Value)) (c : String) (v : Value) :
    (setCell r c v).map Prod.fst =
      (if alistHas r c then r.map Prod.fst else r.map Prod.fst ++ [c]) := by
  unfold setCell
  by_cases h : alistHas r c = true
  · rw [if_pos h, if_pos h]
    simp only [alistModify, List.map_map]
    exact List.map_congr_left (fun p _ => by
      simp only [Function.comp]
      exact fst_modifyPair p c (fun _ => v))
  · rw [if_neg h, if_neg h, List.map_append]
    rfl

theorem span_row_keys {df d : DataFrame}
    (ha : addSpanCount df = Except.ok d)
    (hwf : ∀ r ∈ df.rows, r.map Prod.fst = df.cols) :
    ∀ r0 ∈ d.rows, r0.map Prod.fst = d.cols := by
  intro r0 hr0
  obtain ⟨r1, hr1, heq⟩ := addSpanCount_rows_mem ha r0 hr0
  have hk1 := hwf r1 hr1
  rw [heq, setCell_keys, hk1, (addSpanCount_ok ha).2.1]
  by_cases hsc : df.cols.contains "span_count" = true
  · rw [if_pos hsc, if_pos (by
      rw [alistHas_iff_mem_keys, hk1]
      simpa [contains_eq_decide_mem] using hsc)]
  · rw [if_neg hsc, if_neg (by
      rw [alistHas_iff_mem_keys, hk1]
      simpa [contains_eq_decide_mem] using hsc)]

theorem optionMapList_get {α β : Type} {f : α → Option β} :
    ∀ {l : List α} {l' : List β}, optionMapList f l = some l' →
      ∀ (i : Nat) (a : α), l[i]? = some a →
        ∃ b, l'[i]? = some b ∧ f a = some b := by
  intro l
  induction l with
  | nil => intro l' _ i a ha; simp at ha
  | cons a0 l ih =>
    intro l' h i a ha
    simp only [optionMapList] at h
    cases hfa : f a0 with
    | none => rw [hfa] at h; simp at h
    | some b0 =>
      rw [hfa] at h
      cases hrec : optionMapList f l with
      | none => rw [hrec] at h; simp at h
      | some bs =>
        rw [hrec] at h
        have hl' : b0 :: bs = l' := (Option.some.injEq _ _).mp h
        cases i with
        | zero =>
          have : a0 = a := by simpa using ha
          refine ⟨b0, ?_, this ▸ hfa⟩
          rw [← hl']
          simp
        | succ j =>
          have ha' : l[j]? = some a := by simpa using ha
          obtain ⟨b, hb, hfb⟩ := ih hrec j a ha'
          exact ⟨b, by rw [← hl']; simpa using hb, hfb⟩

theorem optionMapList_length {α β : Type} {f : α → Option β} {l : List α}
    {l' : List β} (h : optionMapList f l = some l') :
    l'.length = l.length :=
  ((optionMapList_some_forall₂ h).length_eq).symm

theorem fetch_non200 {http : String → GhResponse} {n : String}
    (h : (http n).status ≠ 200) :
    fetch_csv_content http n = Except.ok emptyDF := by
  unfold fetch_csv_content
  rw [if_neg h]

/-! ## Claims -/

/-- C1: the claim says the Pattern Analyzer returns a result table sorted in
descending order of `average_em_score + tag_count * weight_factor`.  The
code instead passes a lambda as the `by` argument of `DataFrame.sort_values`
(line 86), which pandas accepts only as a column label, so the call raises
`KeyError` and no sorted table is ever produced: evaluating the analyzer at
a well-formed one-row table yields the raised error, not a table. -/
theorem analysis_pattern_sort_raises :
    analysis_pattern [⟨"a <span> b", TagCell.raw "[\"x\"]", 1⟩] 2 =
      Except.error "KeyError: <lambda>" := by decide

/-- C4 counterexample: the claim says that whenever fetching or decoding a
file fails, the File Fetcher returns an empty Dataset and does not raise.
A 200 response whose `content` field fails base64 decoding (`"QQ"` has two
data characters and no padding) makes `fetch_csv_content` raise instead. -/
theorem fetch_decode_failure_raises :
    fetch_csv_content (fun _ => ⟨200, "QQ"⟩) "results.csv" =
      Except.error "binascii.Error: Incorrect padding" := by decide

/-- C4 (amended): when the HTTP request for a file returns a non-success
status, the File Fetcher returns an empty Dataset and does not raise, and
aggregation over the remaining files continues; but when a success
response's content fails base64/UTF-8 decoding or CSV parsing, the
exception propagates to the caller. -/
theorem fetch_http_failure_returns_empty (http : String → GhResponse)
    (n : String) (h : (http n).status ≠ 200) :
    fetch_csv_content http n = Except.ok emptyDF :=
  fetch_non200 h

/-- Witness for C4 (amended) at a concrete 404 response. -/
theorem fetch_http_failure_returns_empty_witness :
    fetch_csv_content (fun _ => ⟨404, ""⟩) "a.csv" = Except.ok emptyDF :=
  fetch_http_failure_returns_empty (fun _ => ⟨404, ""⟩) "a.csv" (by decide)

/-- C7: an Aggregated Table containing at least one row whose tagged_words
field cannot be parsed as a sequence literal makes the whole analysis call
fail (the `eval` exception propagates out of the column `apply`), rather
than that row being skipped. -/
theorem analysis_pattern_aborts_on_bad_row (df : List ARow) (w : ℚ)
    (h : ∃ r ∈ df, evalTagCell r.tagged_words = none) :
    analysis_pattern df w =
      Except.error "eval: malformed tagged_words literal" := by
  have hp : parseTaggedColumn df = none := optionMapList_none _ df h
  have hstats : tag_analysis_stats df =
      Except.error "eval: malformed tagged_words literal" := by
    unfold tag_analysis_stats
    rw [hp]
  unfold analysis_pattern analysis_pattern_run
  dsimp only
  rw [hstats]

/-- Witness for C7: one malformed row aborts the whole analysis. -/
theorem analysis_pattern_aborts_on_bad_row_witness :
    analysis_pattern [⟨"p", TagCell.raw "oops", 1⟩] 2 =
      Except.error "eval: malformed tagged_words literal" :=
  analysis_pattern_aborts_on_bad_row _ _
    ⟨⟨"p", TagCell.raw "oops", 1⟩, List.mem_cons_self _ _, by decide⟩

/-- C2 counterexample: the claim says tag_count counts Records containing
the tag, each Record incrementing at most once even when it repeats the
tag.  A single Record whose tag sequence lists the same tag twice yields
tag_count 2 although only 1 Record contains the tag. -/
theorem tag_count_counterexample :
    parseTaggedColumn [⟨"p", TagCell.raw "[\"x\", \"x\"]", 1⟩] =
      some [["x", "x"]] ∧
    Except.map (List.map (fun tr => (tr.tag, tr.tag_count)))
      (tag_analysis_stats [⟨"p", TagCell.raw "[\"x\", \"x\"]", 1⟩]) =
      Except.ok [("x", 2)] ∧
    recordsContaining
      (analysisRows [⟨"p", TagCell.raw "[\"x\", \"x\"]", 1⟩] [["x", "x"]])
      "x" = 1 :=
  ⟨by decide, by decide, by decide⟩

/-- C2 (amended): tag_count equals the total number of occurrences of the
tag across all rows' parsed tag sequences (a Record listing the same tag k
times contributes k increments); when no Record's tag sequence repeats a
tag, this equals the number of Records containing the tag. -/
theorem tag_count_occurrences (df : List ARow) (tss : List (List String))
    (table : List TagRow) (hp : parseTaggedColumn df = some tss)
    (ht : tag_analysis_stats df = Except.ok table) :
    ∀ tr ∈ table,
      tr.tag_count = tagOccurrences (analysisRows df tss) tr.tag ∧
      ((∀ ts ∈ tss, ts.Nodup) →
        tr.tag_count = recordsContaining (analysisRows df tss) tr.tag) := by
  intro tr htr
  have hfacts := stats_row_facts df tss table hp ht tr htr
  refine ⟨hfacts.1, fun hnd => ?_⟩
  rw [hfacts.1]
  apply tagOccurrences_eq_recordsContaining
  rintro ⟨ts, em⟩ hr
  exact hnd ts (List.of_mem_zip (by simpa [analysisRows] using hr)).1

/-- Witness for C2 (amended) at a one-row, duplicate-free table. -/
theorem tag_count_occurrences_witness :
    (⟨"x", 1, 1⟩ : TagRow).tag_count =
      tagOccurrences (analysisRows [⟨"p", TagCell.raw "[\"x\"]", 1⟩] [["x"]])
        "x" ∧
    (⟨"x", 1, 1⟩ : TagRow).tag_count =
      recordsContaining
        (analysisRows [⟨"p", TagCell.raw "[\"x\"]", 1⟩] [["x"]]) "x" := by
  have hp : parseTaggedColumn [⟨"p", TagCell.raw "[\"x\"]", 1⟩] =
      some [["x"]] := by decide
  have htally : tallyRows ([["x"]].zip
      ([(⟨"p", TagCell.raw "[\"x\"]", 1⟩ : ARow)].map (fun r => r.em_score)))
      = ([("x", 1)], [("x", [1])]) := by decide
  have ht : tag_analysis_stats [⟨"p", TagCell.raw "[\"x\"]", 1⟩] =
      Except.ok [⟨"x", 1, 1⟩] := by
    simp [tag_analysis_stats, hp, htally, tagAverages, exceptMapList,
      buildTable, alistGet, List.find?]
  have h := tag_count_occurrences _ _ _ hp ht ⟨"x", 1, 1⟩
    (List.mem_cons_self _ _)
  exact ⟨h.1, h.2 (by decide)⟩

/-- C3 counterexample: the claim says average_em_score is the arithmetic
mean over the Records containing the tag, each containing Record weighted
once.  With Records (tags [x, x], score 0) and (tags [x], score 1) the
analyzer computes 1/3 for x (the duplicate appends the score twice), while
the mean over the two containing Records is 1/2. -/
theorem average_em_counterexample :
    tag_analysis_stats [⟨"p", TagCell.raw "[\"x\", \"x\"]", 0⟩,
        ⟨"q", TagCell.raw "[\"x\"]", 1⟩] =
      Except.ok [⟨"x", 1/3, 3⟩] ∧
    meanOfRows (analysisRows [⟨"p", TagCell.raw "[\"x\", \"x\"]", 0⟩,
        ⟨"q", TagCell.raw "[\"x\"]", 1⟩] [["x", "x"], ["x"]]) "x" = 1/2 ∧
    (1/3 : ℚ) ≠ 1/2 := by
  refine ⟨?_, ?_, by norm_num⟩
  · have hp : parseTaggedColumn [⟨"p", TagCell.raw "[\"x\", \"x\"]", 0⟩,
        ⟨"q", TagCell.raw "[\"x\"]", 1⟩] = some [["x", "x"], ["x"]] := by
      decide
    have htally : tallyRows ([["x", "x"], ["x"]].zip
        ([⟨"p", TagCell.raw "[\"x\", \"x\"]", 0⟩,
          ⟨"q", TagCell.raw "[\"x\"]", 1⟩].map
            (fun r => (r : ARow).em_score)))
        = ([("x", 3)], [("x", [0, 0, 1])]) := by decide
    simp [tag_analysis_stats, hp, htally, tagAverages, exceptMapList,
      buildTable, alistGet, List.find?]
  · simp [meanOfRows, analysisRows, List.filter, contains_eq_decide_mem]

/-- C3 (amended): average_em_score is the occurrence-weighted mean: each
occurrence of the tag contributes one copy of its Record's score (a Record
listing the tag k times contributes its score k times); when no Record's
tag sequence repeats a tag, this equals the arithmetic mean over the
Records containing the tag, and it is a function of the input, hence
reproducible on the same input set. -/
theorem average_occurrence_weighted (df : List ARow)
    (tss : List (List String)) (table : List TagRow)
    (hp : parseTaggedColumn df = some tss)
    (ht : tag_analysis_stats df = Except.ok table) :
    ∀ tr ∈ table,
      tr.average_em_score = (scoresFor (analysisRows df tss) tr.tag).sum /
        ((scoresFor (analysisRows df tss) tr.tag).length : ℚ) ∧
      ((∀ ts ∈ tss, ts.Nodup) →
        tr.average_em_score = meanOfRows (analysisRows df tss) tr.tag) := by
  intro tr htr
  have hfacts := stats_row_facts df tss table hp ht tr htr
  refine ⟨hfacts.2.1, fun hnd => ?_⟩
  rw [hfacts.2.1]
  have hnd' : ∀ r ∈ analysisRows df tss, (r : List String × ℚ).1.Nodup := by
    rintro ⟨ts, em⟩ hr
    exact hnd ts (List.of_mem_zip (by simpa [analysisRows] using hr)).1
  rw [scoresFor_of_nodup _ _ hnd']
  unfold meanOfRows
  rw [List.length_map]

/-- Witness for C3 (amended) at a one-row, duplicate-free table. -/
theorem average_occurrence_weighted_witness :
    (⟨"x", 1, 1⟩ : TagRow).average_em_score =
      (scoresFor (analysisRows [⟨"p", TagCell.raw "[\"x\"]", 1⟩] [["x"]])
        "x").sum /
      ((scoresFor (analysisRows [⟨"p", TagCell.raw "[\"x\"]", 1⟩] [["x"]])
        "x").length : ℚ) ∧
    (⟨"x", 1, 1⟩ : TagRow).average_em_score =
      meanOfRows (analysisRows [⟨"p", TagCell.raw "[\"x\"]", 1⟩] [["x"]])
        "x" := by
  have hp : parseTaggedColumn [⟨"p", TagCell.raw "[\"x\"]", 1⟩] =
      some [["x"]] := by decide
  have htally : tallyRows ([["x"]].zip
      ([(⟨"p", TagCell.raw "[\"x\"]", 1⟩ : ARow)].map (fun r => r.em_score)))
      = ([("x", 1)], [("x", [1])]) := by decide
  have ht : tag_analysis_stats [⟨"p", TagCell.raw "[\"x\"]", 1⟩] =
      Except.ok [⟨"x", 1, 1⟩] := by
    simp [tag_analysis_stats, hp, htally, tagAverages, exceptMapList,
      buildTable, alistGet, List.find?]
  have h := average_occurrence_weighted _ _ _ hp ht ⟨"x", 1, 1⟩
    (List.mem_cons_self _ _)
  exact ⟨h.1, h.2 (by decide)⟩

/-- C9 counterexample: the claim says the Pattern Analyzer leaves the input
table unchanged.  Running it on a one-row table replaces the raw
tagged_words text with its parsed value, so the table the caller holds
afterwards differs from the one passed in. -/
theorem analysis_mutates_input :
    (analysis_pattern_run [⟨"p", TagCell.raw "[\"x\"]", 1⟩] 2).1 ≠
      [⟨"p", TagCell.raw "[\"x\"]", 1⟩] := by decide

/-- C9 (amended): line 64 mutates the caller's table: when every
tagged_words cell parses, each cell is replaced in place by its parsed tag
list while original_passage, em_score and the row order are unchanged; when
parsing fails the table is left as it was. -/
theorem analysis_pattern_mutation (df : List ARow) (w : ℚ) :
    (analysis_pattern_run df w).1.length = df.length ∧
    ∀ (i : Nat) (r r' : ARow), df[i]? = some r →
      (analysis_pattern_run df w).1[i]? = some r' →
      r'.original_passage = r.original_passage ∧
      r'.em_score = r.em_score ∧
      (r'.tagged_words = r.tagged_words ∨
        (evalTagCell r.tagged_words).map TagCell.parsed =
          some r'.tagged_words) := by
  unfold analysis_pattern_run
  dsimp only
  cases hp : parseTaggedColumn df with
  | none =>
    refine ⟨rfl, fun i r r' hr hr' => ?_⟩
    rw [hr] at hr'
    have : r = r' := (Option.some.injEq _ _).mp hr'
    rw [← this]
    exact ⟨rfl, rfl, Or.inl rfl⟩
  | some tss =>
    have hlen : tss.length = df.length := optionMapList_length hp
    constructor
    · simp [setParsed, List.length_zipWith, hlen]
    · intro i r r' hr hr'
      obtain ⟨ts, hts, hfts⟩ := optionMapList_get hp i r hr
      simp only [setParsed] at hr'
      rw [List.getElem?_zipWith, hr, hts] at hr'
      dsimp only at hr'
      have : { r with tagged_words := TagCell.parsed ts } = r' :=
        (Option.some.injEq _ _).mp hr'
      rw [← this]
      exact ⟨rfl, rfl, Or.inr (by rw [hfts]; rfl)⟩

/-- Witness for C9 (amended): the parsed row keeps every other field. -/
theorem analysis_pattern_mutation_witness :
    (analysis_pattern_run [⟨"p", TagCell.raw "[\"x\"]", 1⟩] 2).1.length = 1 ∧
    (⟨"p", TagCell.parsed ["x"], 1⟩ : ARow).original_passage =
      (⟨"p", TagCell.raw "[\"x\"]", 1⟩ : ARow).original_passage ∧
    (⟨"p", TagCell.parsed ["x"], 1⟩ : ARow).em_score =
      (⟨"p", TagCell.raw "[\"x\"]", 1⟩ : ARow).em_score ∧
    ((⟨"p", TagCell.parsed ["x"], 1⟩ : ARow).tagged_words =
      (⟨"p", TagCell.raw "[\"x\"]", 1⟩ : ARow).tagged_words ∨
      (evalTagCell (⟨"p", TagCell.raw "[\"x\"]", 1⟩ : ARow).tagged_words).map
        TagCell.parsed =
        some (⟨"p", TagCell.parsed ["x"], 1⟩ : ARow).tagged_words) := by
  have h := analysis_pattern_mutation [⟨"p", TagCell.raw "[\"x\"]", 1⟩] 2
  exact ⟨h.1, h.2 0 ⟨"p", TagCell.raw "[\"x\"]", 1⟩
    ⟨"p", TagCell.parsed ["x"], 1⟩ (by decide) (by decide)⟩

/-- C10: whenever the tag column parses (the analyzer gets past line 64),
the statistics stage succeeds: every tag in the accumulators has a
non-empty score list, so `sum(scores) / len(scores)` never divides by zero,
and every tag in the built table has tag_count at least 1. -/
theorem stats_no_division_by_zero (df : List ARow)
    (tss : List (List String)) (hp : parseTaggedColumn df = some tss) :
    (tag_analysis_stats df).isOk = true ∧
    (∀ p ∈ (tallyRows (analysisRows df tss)).2, p.2 ≠ []) ∧
    (∀ table, tag_analysis_stats df = Except.ok table →
      ∀ tr ∈ table, 1 ≤ tr.tag_count) := by
  refine ⟨?_, fun p hp' => scores_nonempty_of_mem hp', ?_⟩
  · rw [stats_table_shape df tss hp]
    rfl
  · intro table ht tr htr
    have hfacts := stats_row_facts df tss table hp ht tr htr
    rw [hfacts.1]
    exact tagOccurrences_pos hfacts.2.2

/-- Witness for C10 at a concrete one-row table. -/
theorem stats_no_division_by_zero_witness :
    (tag_analysis_stats [⟨"p", TagCell.raw "[\"x\"]", 1⟩]).isOk = true ∧
    1 ≤ (⟨"x", 1, 1⟩ : TagRow).tag_count := by
  have hp : parseTaggedColumn [⟨"p", TagCell.raw "[\"x\"]", 1⟩] =
      some [["x"]] := by decide
  have htally : tallyRows ([["x"]].zip
      ([(⟨"p", TagCell.raw "[\"x\"]", 1⟩ : ARow)].map (fun r => r.em_score)))
      = ([("x", 1)], [("x", [1])]) := by decide
  have ht : tag_analysis_stats [⟨"p", TagCell.raw "[\"x\"]", 1⟩] =
      Except.ok [⟨"x", 1, 1⟩] := by
    simp [tag_analysis_stats, hp, htally, tagAverages, exceptMapList,
      buildTable, alistGet, List.find?]
  have h := stats_no_division_by_zero [⟨"p", TagCell.raw "[\"x\"]", 1⟩]
    [["x"]] hp
  exact ⟨h.1, h.2.2 [⟨"x", 1, 1⟩] ht ⟨"x", 1, 1⟩ (List.mem_cons_self _ _)⟩

/-- C5: the Aggregated Table's row count equals the sum of the row counts
of the non-empty fetched Datasets, with empty or failed fetches
contributing zero rows; an empty file list gives an empty table, and when
every fetch fails over HTTP the table is empty as well. -/
theorem aggregate_row_count (http : String → GhResponse)
    (names : List String) :
    (∀ agg, aggregate_csv_files http names = Except.ok agg →
      agg.rows.length = (names.map (fun n =>
        match fetch_csv_content http n with
        | Except.ok d => if pdEmpty d then 0 else d.rows.length
        | Except.error _ => 0)).sum) ∧
    aggregate_csv_files http [] = Except.ok emptyDF ∧
    ((∀ n ∈ names, (http n).status ≠ 200) →
      aggregate_csv_files http names = Except.ok emptyDF) := by
  refine ⟨?_, rfl, ?_⟩
  · intro agg h
    obtain ⟨ds, hc, rfl⟩ := aggregate_ok h
    rw [pd_concat_length, collectData_ok_lengths hc]
  · intro hall
    unfold aggregate_csv_files
    rw [collectData_all_empty (fun n hn => fetch_non200 (hall n hn))]

/-- Witness for C5: one non-empty file and one failed fetch give one row;
all fetches failing gives the empty table. -/
theorem aggregate_row_count_witness :
    (⟨["original_passage", "em_score", "span_count"],
      [[("original_passage", Value.str "x <span> y"),
        ("em_score", Value.str "1.0"),
        ("span_count", Value.nat 1)]]⟩ : DataFrame).rows.length =
      ((["a.csv", "b.csv"]).map (fun n =>
        match fetch_csv_content (fun m => if m = "a.csv" then
            ⟨200, "b3JpZ2luYWxfcGFzc2FnZSxlbV9zY29yZQp4IDxzcGFuPiB5LDEuMA=="⟩
          else ⟨404, ""⟩) n with
        | Except.ok d => if pdEmpty d then 0 else d.rows.length
        | Except.error _ => 0)).sum ∧
    aggregate_csv_files (fun _ => ⟨404, ""⟩) ["a.csv"] =
      Except.ok emptyDF := by
  constructor
  · exact (aggregate_row_count (fun m => if m = "a.csv" then
        ⟨200, "b3JpZ2luYWxfcGFzc2FnZSxlbV9zY29yZQp4IDxzcGFuPiB5LDEuMA=="⟩
      else ⟨404, ""⟩) ["a.csv", "b.csv"]).1 _ (by decide)
  · exact (aggregate_row_count (fun _ => ⟨404, ""⟩) ["a.csv"]).2.2
      (fun n _ => by decide)

/-- C6: every row of the Aggregated Table carries a span_count cell equal
to the literal, case-sensitive, non-overlapping count of the substring
`<span` in that row's original_passage cell. -/
theorem span_count_matches (http : String → GhResponse)
    (names : List String) (agg : DataFrame)
    (h : aggregate_csv_files http names = Except.ok agg) :
    ∀ r ∈ agg.rows, ∀ s,
      getCell r "original_passage" = some (Value.str s) →
      getCell r "span_count" = some (Value.nat (countSpanTags s)) := by
  intro r hr s hpass
  obtain ⟨ds, hc, rfl⟩ := aggregate_ok h
  obtain ⟨d, hd, r0, hr0, rfl⟩ := (pd_concat_rows_mem ds r).mp hr
  obtain ⟨n, df, hn, hf, hne, ha⟩ := collectData_ok_mem hc d hd
  obtain ⟨r1, hr1, rfl⟩ := addSpanCount_rows_mem ha r0 hr0
  rw [getCell_reindex] at hpass
  by_cases hm : "original_passage" ∈ unionCols ds
  swap
  · rw [if_neg hm] at hpass
    exact absurd hpass (by simp)
  rw [if_pos hm] at hpass
  have hgd := (Option.some.injEq _ _).mp hpass
  rw [getCell_setCell_ne _ _ _ _ (by decide)] at hgd
  have hg : getCell r1 "original_passage" = some (Value.str s) := by
    cases hgc : getCell r1 "original_passage" with
    | none => rw [hgc] at hgd; exact absurd hgd (by simp)
    | some v => rw [hgc] at hgd; rw [show v = Value.str s from hgd]
  have hspanmem : "span_count" ∈ unionCols ds :=
    (mem_unionCols ds _).mpr ⟨d, hd, addSpanCount_span_mem ha⟩
  rw [getCell_reindex, if_pos hspanmem, getCell_setCell_same, hg]
  rfl

/-- Witness for C6 at a concrete aggregated row with one `<span`. -/
theorem span_count_matches_witness :
    getCell [("original_passage", Value.str "x <span> y"),
      ("em_score", Value.str "1.0"), ("span_count", Value.nat 1)]
      "span_count" = some (Value.nat (countSpanTags "x <span> y")) :=
  span_count_matches (fun m => if m = "a.csv" then
      ⟨200, "b3JpZ2luYWxfcGFzc2FnZSxlbV9zY29yZQp4IDxzcGFuPiB5LDEuMA=="⟩
    else ⟨404, ""⟩) ["a.csv", "b.csv"]
    ⟨["original_passage", "em_score", "span_count"],
      [[("original_passage", Value.str "x <span> y"),
        ("em_score", Value.str "1.0"), ("span_count", Value.nat 1)]]⟩
    (by decide)
    [("original_passage", Value.str "x <span> y"),
      ("em_score", Value.str "1.0"), ("span_count", Value.nat 1)]
    (by decide) "x <span> y" (by decide)

/-- C8: the Aggregated Table's column set is the union of the source
columns plus span_count; every aggregated row arises from one source
Dataset, carries a cell for every aggregated column, and any cell for a
column absent from its source Dataset (other than the derived span_count)
holds the explicit NaN marker rather than the column being dropped. -/
theorem aggregate_columns (http : String → GhResponse) (names : List String)
    (agg : DataFrame) (h : aggregate_csv_files http names = Except.ok agg) :
    (∀ c, c ∈ agg.cols ↔ ∃ n ∈ names, ∃ d,
      fetch_csv_content http n = Except.ok d ∧ pdEmpty d = false ∧
      (c ∈ d.cols ∨ c = "span_count")) ∧
    (∀ r ∈ agg.rows, ∃ n df d r0, n ∈ names ∧
      fetch_csv_content http n = Except.ok df ∧ pdEmpty df = false ∧
      addSpanCount df = Except.ok d ∧ r0 ∈ d.rows ∧
      r = reindexRow agg.cols r0 ∧
      (∀ c ∈ agg.cols, (getCell r c).isSome = true) ∧
      (∀ c ∈ agg.cols, c ∉ df.cols → c ≠ "span_count" →
        getCell r c = some Value.nan)) := by
  obtain ⟨ds, hc, rfl⟩ := aggregate_ok h
  constructor
  · intro c
    rw [show (pd_concat ds).cols = unionCols ds from rfl, mem_unionCols]
    constructor
    · rintro ⟨d, hd, hcd⟩
      obtain ⟨n, df, hn, hf, hne, ha⟩ := collectData_ok_mem hc d hd
      exact ⟨n, hn, df, hf, hne, (addSpanCount_cols_mem ha c).mp hcd⟩
    · rintro ⟨n, hn, df, hf, hne, hor⟩
      obtain ⟨df2, hf2, hrest⟩ := collectData_ok_forall hc n hn
      rw [hf] at hf2
      have hdf2 : df = df2 := (Except.ok.injEq _ _).mp hf2
      rw [← hdf2] at hrest
      rcases hrest with hemp | ⟨d, hd, ha⟩
      · rw [hemp] at hne
        exact absurd hne (by simp)
      · exact ⟨d, hd, (addSpanCount_cols_mem ha c).mpr hor⟩
  · intro r hr
    obtain ⟨d, hd, r0, hr0, rfl⟩ := (pd_concat_rows_mem ds r).mp hr
    obtain ⟨n, df, hn, hf, hne, ha⟩ := collectData_ok_mem hc d hd
    refine ⟨n, df, d, r0, hn, hf, hne, ha, hr0, rfl, ?_, ?_⟩
    · intro c hcm
      have hcm' : c ∈ unionCols ds := hcm
      rw [getCell_reindex, if_pos hcm']
      rfl
    · intro c hcm hcdf hcspan
      have hcm' : c ∈ unionCols ds := hcm
      have hwf : ∀ rr ∈ df.rows, rr.map Prod.fst = df.cols := by
        rcases fetch_wf hf with he | hwf
        · rw [he] at hne
          exact absurd hne (by simp [pdEmpty, emptyDF])
        · exact hwf
      have hkeys := span_row_keys ha hwf r0 hr0
      have hnotkey : c ∉ r0.map Prod.fst := by
        rw [hkeys]
        intro hcd
        rcases (addSpanCount_cols_mem ha c).mp hcd with h1 | h2
        · exact hcdf h1
        · exact hcspan h2
      have hnone : getCell r0 c = none :=
        alistGet_none_of_not_mem_keys hnotkey
      rw [getCell_reindex, if_pos hcm', hnone]
      rfl

/-- Witness for C8: two heterogeneous files; the `extra` column of the
second file joins the aggregated column set, and the row from the first
file (whose source lacks `extra`) carries the NaN marker there. -/
theorem aggregate_columns_witness :
    "extra" ∈ (⟨["original_passage", "em_score", "span_count", "extra"],
      [[("original_passage", Value.str "x <span> y"),
        ("em_score", Value.str "1.0"), ("span_count", Value.nat 1),
        ("extra", Value.nan)],
       [("original_passage", Value.str "y"), ("em_score", Value.nan),
        ("span_count", Value.nat 0),
        ("extra", Value.str "zz")]]⟩ : DataFrame).cols ∧
    getCell [("original_passage", Value.str "x <span> y"),
      ("em_score", Value.str "1.0"), ("span_count", Value.nat 1),
      ("extra", Value.nan)] "extra" = some Value.nan := by
  have h := aggregate_columns
    (fun n => if n = "a.csv" then
        ⟨200, "b3JpZ2luYWxfcGFzc2FnZSxlbV9zY29yZQp4IDxzcGFuPiB5LDEuMA=="⟩
      else ⟨200, "b3JpZ2luYWxfcGFzc2FnZSxleHRyYQp5LHp6"⟩)
    ["a.csv", "b.csv"]
    ⟨["original_passage", "em_score", "span_count", "extra"],
      [[("original_passage", Value.str "x <span> y"),
        ("em_score", Value.str "1.0"), ("span_count", Value.nat 1),
        ("extra", Value.nan)],
       [("original_passage", Value.str "y"), ("em_score", Value.nan),
        ("span_count", Value.nat 0), ("extra", Value.str "zz")]]⟩
    (by decide)
  refine ⟨?_, ?_⟩
  · exact (h.1 "extra").mpr ⟨"b.csv", by decide,
      ⟨["original_passage", "extra"],
        [[("original_passage", Value.str "y"),
          ("extra", Value.str "zz")]]⟩,
      by decide, by decide, Or.inl (by decide)⟩
  · obtain ⟨n, df, d, r0, hn, hf, hne, ha, hr0, hreq, hsome, hnan⟩ :=
      h.2 [("original_passage", Value.str "x <span> y"),
        ("em_score", Value.str "1.0"), ("span_count", Value.nat 1),
        ("extra", Value.nan)] (by decide)
    rcases List.mem_cons.mp hn with rfl | hn2
    · have hfa : fetch_csv_content (fun n => if n = "a.csv" then
          ⟨200, "b3JpZ2luYWxfcGFzc2FnZSxlbV9zY29yZQp4IDxzcGFuPiB5LDEuMA=="⟩
        else ⟨200, "b3JpZ2luYWxfcGFzc2FnZSxleHRyYQp5LHp6"⟩) "a.csv" =
          Except.ok ⟨["original_passage", "em_score"],
            [[("original_passage", Value.str "x <span> y"),
              ("em_score", Value.str "1.0")]]⟩ := by decide
      rw [hfa] at hf
      have hdf := (Except.ok.injEq _ _).mp hf
      exact hnan "extra" (by decide) (by rw [← hdf]; decide) (by decide)
    · rcases List.mem_cons.mp hn2 with rfl | hn3
      · have hfb : fetch_csv_content (fun n => if n = "a.csv" then
            ⟨200, "b3JpZ2luYWxfcGFzc2FnZSxlbV9zY29yZQp4IDxzcGFuPiB5LDEuMA=="⟩
          else ⟨200, "b3JpZ2luYWxfcGFzc2FnZSxleHRyYQp5LHp6"⟩) "b.csv" =
            Except.ok ⟨["original_passage", "extra"],
              [[("original_passage", Value.str "y"),
                ("extra", Value.str "zz")]]⟩ := by decide
        rw [hfb] at hf
        have hdf := (Except.ok.injEq _ _).mp hf
        rw [← hdf] at ha
        have hab : addSpanCount ⟨["original_passage", "extra"],
            [[("original_passage", Value.str "y"),
              ("extra", Value.str "zz")]]⟩ =
            Except.ok ⟨["original_passage", "extra", "span_count"],
              [[("original_passage", Value.str "y"),
                ("extra", Value.str "zz"),
                ("span_count", Value.nat 0)]]⟩ := by decide
        rw [hab] at ha
        have hd := (Except.ok.injEq _ _).mp ha
        rw [← hd] at hr0
        have hr0eq : r0 = [("original_passage", Value.str "y"),
            ("extra", Value.str "zz"), ("span_count", Value.nat 0)] := by
          simpa using hr0
        rw [hr0eq] at hreq
        exact absurd hreq (by decide)
      · simp at hn3

end BPeach
